import Mathlib

/-!
# Verification of the `uv-distribution-filename` wheel-filename core

A shallow embedding of `src/crates/uv-distribution-filename/src/wheel.rs`:
parsing and rendering of Python wheel filenames
(`{name}-{version}[-{build_tag}]-{python_tag}-{abi_tag}-{platform_tag}.whl`),
together with proofs of the specification's claims about it.

Strings are modelled as `List Char`.  The external sub-parsers
(package names from `uv-normalize`, versions from `uv-pep440`, build tags,
and language/ABI/platform tags from `uv-platform-tags`) are not part of the
source tree; they are modelled from the specification as validating
identity parsers over the character grammars the spec describes.
-/

namespace Wheel

/-- Strings are modelled as lists of characters. -/
abbrev Str := List Char

/-- Model of Rust's `str::split(sep)`: splitting the empty string yields one
empty piece, and every occurrence of the separator starts a new piece. -/
def splitOn (sep : Char) : Str → List Str
  | [] => [[]]
  | c :: cs =>
    if c = sep then [] :: splitOn sep cs
    else (splitOn sep cs).modifyHead (fun p => c :: p)

/-- Model of joining pieces with a separator character (Rust's
`[..].join(sep)` / the `{}-{}` write-outs of `Display`). -/
def joinSep (sep : Char) : List Str → Str
  | [] => []
  | [x] => x
  | x :: y :: ys => x ++ sep :: joinSep sep (y :: ys)

/-- Model of Rust's `Iterator::collect::<Result<_, _>>()` over a mapped
iterator: parse every element, short-circuiting on the first failure. -/
def mapSome {α : Type} (f : Str → Option α) : List Str → Option (List α)
  | [] => some []
  | x :: xs =>
    match f x, mapSome f xs with
    | some y, some ys => some (y :: ys)
    | _, _ => none

/-- Model of Rust's `str::strip_suffix`: `some` of the prefix when the string
ends with the suffix, `none` otherwise. -/
def stripSuffix (s suffix : Str) : Option Str :=
  if suffix.isSuffixOf s then some (s.take (s.length - suffix.length)) else none

theorem splitOn_ne_nil (sep : Char) (s : Str) : splitOn sep s ≠ [] := by
  induction s with
  | nil => simp [splitOn]
  | cons c cs ih =>
    simp only [splitOn]
    split
    · simp
    · cases h : splitOn sep cs with
      | nil => exact absurd h ih
      | cons p ps => simp [List.modifyHead]

theorem splitOn_of_not_mem {sep : Char} {s : Str} (h : sep ∉ s) :
    splitOn sep s = [s] := by
  induction s with
  | nil => rfl
  | cons c cs ih =>
    simp only [List.mem_cons, not_or] at h
    have hc : ¬c = sep := fun hh => h.1 hh.symm
    simp only [splitOn, if_neg hc, ih h.2]
    rfl

theorem splitOn_append_sep {sep : Char} {x : Str} (rest : Str) (h : sep ∉ x) :
    splitOn sep (x ++ sep :: rest) = x :: splitOn sep rest := by
  induction x with
  | nil => simp [splitOn]
  | cons c cs ih =>
    simp only [List.mem_cons, not_or] at h
    have hc : ¬c = sep := fun hh => h.1 hh.symm
    simp only [List.cons_append, splitOn, if_neg hc, List.append_eq, ih h.2]
    rfl

theorem splitOn_joinSep {sep : Char} {parts : List Str} (hne : parts ≠ [])
    (h : ∀ p ∈ parts, sep ∉ p) :
    splitOn sep (joinSep sep parts) = parts := by
  induction parts with
  | nil => exact absurd rfl hne
  | cons x xs ih =>
    cases xs with
    | nil =>
      simp only [joinSep]
      exact splitOn_of_not_mem (h x (by simp))
    | cons y ys =>
      simp only [joinSep]
      rw [splitOn_append_sep _ (h x (by simp)),
        ih (by simp) (fun p hp => h p (List.mem_cons_of_mem x hp))]

theorem mem_joinSep {c sep : Char} {parts : List Str}
    (h : c ∈ joinSep sep parts) : c = sep ∨ ∃ p ∈ parts, c ∈ p := by
  induction parts with
  | nil => simp [joinSep] at h
  | cons x xs ih =>
    cases xs with
    | nil =>
      simp only [joinSep] at h
      exact Or.inr ⟨x, by simp, h⟩
    | cons y ys =>
      simp only [joinSep, List.mem_append, List.mem_cons] at h
      rcases h with hx | hc | hrest
      · exact Or.inr ⟨x, by simp, hx⟩
      · exact Or.inl hc
      · rcases ih hrest with hsep | ⟨p, hp, hcp⟩
        · exact Or.inl hsep
        · exact Or.inr ⟨p, List.mem_cons_of_mem x hp, hcp⟩

theorem joinSep_cons_cons (sep : Char) (x y : Str) (ys : List Str) :
    joinSep sep (x :: y :: ys) = x ++ sep :: joinSep sep (y :: ys) := rfl

theorem mapSome_length {α : Type} {f : Str → Option α} :
    ∀ {xs : List Str} {ys : List α}, mapSome f xs = some ys →
      ys.length = xs.length := by
  intro xs
  induction xs with
  | nil => intro ys h; simp only [mapSome, Option.some.injEq] at h; simp [← h]
  | cons x xs ih =>
    intro ys h
    simp only [mapSome] at h
    cases hx : f x with
    | none => rw [hx] at h; simp at h
    | some y =>
      rw [hx] at h
      cases hxs : mapSome f xs with
      | none => rw [hxs] at h; simp at h
      | some ys' =>
        rw [hxs] at h
        simp only [Option.some.injEq] at h
        simp [← h, ih hxs]

theorem mapSome_map_of_inverse {α : Type} {f : Str → Option α} {g : α → Str}
    {l : List α} (h : ∀ t ∈ l, f (g t) = some t) :
    mapSome f (l.map g) = some l := by
  induction l with
  | nil => rfl
  | cons t ts ih =>
    simp only [List.map_cons, mapSome, h t (by simp),
      ih (fun u hu => h u (List.mem_cons_of_mem t hu))]

theorem stripSuffix_append (a b : Str) : stripSuffix (a ++ b) b = some a := by
  have hsuf : b.isSuffixOf (a ++ b) := by
    rw [List.isSuffixOf_iff_suffix]
    exact List.suffix_append a b
  simp only [stripSuffix, if_pos hsuf, List.length_append]
  have hlen : a.length + b.length - b.length = a.length := by omega
  rw [hlen, List.take_left]

/-- Modelled from the spec: a character legal in a normalized package name's
distribution-info form (`uv-normalize` is not under `src/`); lowercase ASCII
letters, digits and underscore, never `-` or `.`. -/
def isNameChar (c : Char) : Bool := c.isLower || c.isDigit || c == '_'

/-- Modelled from the spec: the external package-name grammar, as a validator
over the distribution-info form. -/
def validName (s : Str) : Bool := !s.isEmpty && s.all isNameChar

/-- Modelled from the spec: a character legal in a canonical version string
(`uv-pep440` is not under `src/`); digits and dots, never `-`. -/
def isVersionChar (c : Char) : Bool := c.isDigit || c == '.'

/-- Modelled from the spec: the external version grammar — a canonical version
string starts with a digit. -/
def validVersion (s : Str) : Bool :=
  match s with
  | [] => false
  | c :: cs => c.isDigit && (c :: cs).all isVersionChar

/-- Modelled from the spec: the external build-tag grammar — a numeric build
tag "fails unless the text starts with a decimal digit". -/
def validBuildTag (s : Str) : Bool :=
  match s with
  | [] => false
  | c :: cs => c.isDigit && (c :: cs).all Char.isDigit

/-- Modelled from the spec: a character legal in a language/ABI/platform tag
(`uv-platform-tags` is not under `src/`); lowercase ASCII letters, digits and
underscore, never `-` or `.` (dots separate the tags of a tag set). -/
def isTagChar (c : Char) : Bool := c.isLower || c.isDigit || c == '_'

/-- Modelled from the spec: the shared sub-grammar of the three tag kinds. -/
def validTagStr (s : Str) : Bool := !s.isEmpty && s.all isTagChar

/-- Modelled from the spec: normalized package names (`uv_normalize::PackageName`). -/
abbrev PackageName := {s : Str // validName s = true}

/-- Modelled from the spec: parsed versions (`uv_pep440::Version`). -/
abbrev Version := {s : Str // validVersion s = true}

/-- Modelled from the spec: numeric build tags (`crate::BuildTag`). -/
abbrev BuildTag := {s : Str // validBuildTag s = true}

/-- Modelled from the spec: language (python) tags (`uv_platform_tags::LanguageTag`). -/
abbrev LanguageTag := {s : Str // validTagStr s = true}

/-- Modelled from the spec: ABI tags (`uv_platform_tags::AbiTag`). -/
abbrev AbiTag := {s : Str // validTagStr s = true}

/-- Modelled from the spec: platform tags (`uv_platform_tags::PlatformTag`). -/
abbrev PlatformTag := {s : Str // validTagStr s = true}

/-- Modelled from the spec: `PackageName::from_str`, a validating parser. -/
def parsePackageName (s : Str) : Option PackageName :=
  if h : validName s = true then some ⟨s, h⟩ else none

/-- Modelled from the spec: `PackageName::as_dist_info_name`, the canonical
distribution-info rendering used by formatting. -/
def as_dist_info_name (n : PackageName) : Str := n.val

/-- Modelled from the spec: `Version::from_str`, a validating parser. -/
def parseVersion (s : Str) : Option Version :=
  if h : validVersion s = true then some ⟨s, h⟩ else none

/-- Modelled from the spec: the canonical string form of a version. -/
def versionStr (v : Version) : Str := v.val

/-- Modelled from the spec: `BuildTag::from_str`, a validating parser. -/
def parseBuildTag (s : Str) : Option BuildTag :=
  if h : validBuildTag s = true then some ⟨s, h⟩ else none

/-- Modelled from the spec: `LanguageTag::from_str`, a validating parser. -/
def parseLanguageTag (s : Str) : Option LanguageTag :=
  if h : validTagStr s = true then some ⟨s, h⟩ else none

/-- Modelled from the spec: `AbiTag::from_str`, a validating parser. -/
def parseAbiTag (s : Str) : Option AbiTag :=
  if h : validTagStr s = true then some ⟨s, h⟩ else none

/-- Modelled from the spec: `PlatformTag::from_str`, a validating parser. -/
def parsePlatformTag (s : Str) : Option PlatformTag :=
  if h : validTagStr s = true then some ⟨s, h⟩ else none

/-- The structured record `WheelFilename` (wheel.rs, lines 36-43).  The
`TagSet` small-vector is modelled as a plain list, as the spec's design notes
allow ("any ordered, insertion-order-preserving sequence container"). -/
structure WheelFilename where
  name : PackageName
  version : Version
  build_tag : Option BuildTag
  python_tag : List LanguageTag
  abi_tag : List AbiTag
  platform_tag : List PlatformTag
  deriving DecidableEq

/-- The error enum `WheelFilenameError` (wheel.rs, lines 270-286).  The
wrapped sub-parser errors of the external collaborators are not modelled;
each variant keeps the filename context string the source stores first. -/
inductive WheelFilenameError where
  | invalidWheelFileName (filename : Str) (message : Str)
  | invalidVersion (filename : Str)
  | invalidPackageName (filename : Str)
  | invalidBuildTag (filename : Str)
  | invalidLanguageTag (filename : Str)
  | invalidAbiTag (filename : Str)
  | invalidPlatformTag (filename : Str)
  deriving DecidableEq

/-- Outcome of a fallible entry point.  `panic` models the
`expect("split always yields 1 or more elements")` branch of
`WheelFilename::parse` (wheel.rs, lines 136-138); the other two cases are the
`Err`/`Ok` cases of the Rust `Result`. -/
inductive ParseResult where
  | panic
  | error (e : WheelFilenameError)
  | ok (w : WheelFilename)
  deriving DecidableEq

/-- `WheelFilename::get_tag` (wheel.rs, lines 98-125): the singleton case is
rendered directly, the general case dot-joins each tag set. -/
def get_tag (w : WheelFilename) : Str :=
  match w.python_tag, w.abi_tag, w.platform_tag with
  | [python_tag], [abi_tag], [platform_tag] =>
    python_tag.val ++ '-' :: abi_tag.val ++ '-' :: platform_tag.val
  | _, _, _ =>
    joinSep '.' (w.python_tag.map Subtype.val) ++
      '-' :: joinSep '.' (w.abi_tag.map Subtype.val) ++
      '-' :: joinSep '.' (w.platform_tag.map Subtype.val)

/-- The `Display` implementation (wheel.rs, lines 59-69):
`write!(f, "{}-{}-{}.whl", name.as_dist_info_name(), version, get_tag())`. -/
def display (w : WheelFilename) : Str :=
  as_dist_info_name w.name ++ '-' :: versionStr w.version ++
    '-' :: get_tag w ++ ".whl".toList

/-- `WheelFilename::stem` (wheel.rs, lines 83-90): the filename without the
extension, rendered from the same three pieces as `Display`. -/
def stem (w : WheelFilename) : Str :=
  as_dist_info_name w.name ++ '-' :: versionStr w.version ++ '-' :: get_tag w

/-- The tag-set validation tail of `WheelFilename::parse` (wheel.rs, lines
205-224): each raw tag segment is split on `.` and every element parsed,
python before ABI before platform, short-circuiting on the first failure. -/
def parseTags (filename : Str) (name : PackageName) (version : Version)
    (build_tag : Option BuildTag) (p a pl : Str) : ParseResult :=
  match mapSome parseLanguageTag (splitOn '.' p) with
  | none => .error (.invalidLanguageTag filename)
  | some python_tag =>
    match mapSome parseAbiTag (splitOn '.' a) with
    | none => .error (.invalidAbiTag filename)
    | some abi_tag =>
      match mapSome parsePlatformTag (splitOn '.' pl) with
      | none => .error (.invalidPlatformTag filename)
      | some platform_tag =>
        .ok ⟨name, version, build_tag, python_tag, abi_tag, platform_tag⟩

/-- The per-segment validation phase of `WheelFilename::parse` (wheel.rs,
lines 195-224): package name, then version, then the optional build tag,
then the three tag sets, short-circuiting on the first failure. -/
def parseSegments (filename n v : Str) (b : Option Str) (p a pl : Str) :
    ParseResult :=
  match parsePackageName n with
  | none => .error (.invalidPackageName filename)
  | some name =>
    match parseVersion v with
    | none => .error (.invalidVersion filename)
    | some version =>
      match b with
      | none => parseTags filename name version none p a pl
      | some bs =>
        match parseBuildTag bs with
        | none => .error (.invalidBuildTag filename)
        | some bt => parseTags filename name version (some bt) p a pl

/-- The segment-counting phase of `WheelFilename::parse` (wheel.rs, lines
134-193), phrased over the list the dash-split of the stem produced: the
sequence of `parts.next()` calls and their error messages, the 5-vs-6
disambiguation of the third segment, and the 7+ overflow check. -/
def parseParts (filename : Str) : List Str → ParseResult
  | [] => .panic
  | [_] => .error (.invalidWheelFileName filename "Must have a version".toList)
  | [_, _] =>
    .error (.invalidWheelFileName filename "Must have a Python tag".toList)
  | [_, _, _] =>
    .error (.invalidWheelFileName filename "Must have an ABI tag".toList)
  | [_, _, _, _] =>
    .error (.invalidWheelFileName filename "Must have a platform tag".toList)
  | [n, v, p, a, pl] => parseSegments filename n v none p a pl
  | [n, v, b, p, a, pl] => parseSegments filename n v (some b) p a pl
  | _ =>
    .error (.invalidWheelFileName filename
      "Must have 5 or 6 components, but has more".toList)

/-- `WheelFilename::parse` (wheel.rs, lines 130-225): split the stem on `-`
and process the segments. -/
def parse (stem filename : Str) : ParseResult :=
  parseParts filename (splitOn '-' stem)

/-- The `FromStr` implementation (wheel.rs, lines 45-57): strip the `.whl`
suffix or fail, then parse the stem with the full filename as context. -/
def from_str (filename : Str) : ParseResult :=
  match stripSuffix filename ".whl".toList with
  | none =>
    .error (.invalidWheelFileName filename "Must end with .whl".toList)
  | some st => parse st filename

/-- `WheelFilename::from_stem` (wheel.rs, lines 93-95): parse a stem, using
the stem itself as the error context. -/
def from_stem (stem : Str) : ParseResult := parse stem stem

/-- Modelled from the spec: a URL (the `url` crate is not under `src/`),
reduced to the two observations `TryFrom<&Url>` makes of it — its string
form (`url.to_string()`) and its optional path segments
(`url.path_segments()`). -/
structure Url where
  toStr : Str
  path_segments : Option (List Str)

/-- The `TryFrom<&Url>` implementation (wheel.rs, lines 228-249): take the
last path segment, or fail with a URL-context error, then delegate to
`from_str`. -/
def try_from (url : Url) : ParseResult :=
  match url.path_segments with
  | none =>
    .error (.invalidWheelFileName url.toStr "URL must have a path".toList)
  | some segments =>
    match segments.getLast? with
    | none =>
      .error
        (.invalidWheelFileName url.toStr "URL must contain a filename".toList)
    | some filename => from_str filename

/-- The serde data model, reduced to the cases the claims distinguish: a
plain string, or some structured encoding. -/
inductive SerdeValue where
  | str (s : Str)
  | structured (fields : List (Str × Str))
  deriving DecidableEq

/-- The `Serialize` implementation (wheel.rs, lines 261-268):
`serializer.serialize_str(&self.to_string())`. -/
def serializeWheel (w : WheelFilename) : SerdeValue := .str (display w)

/-- The `Deserialize` implementation (wheel.rs, lines 251-259):
`String::deserialize` then `FromStr::from_str`; `none` models the failure of
`String::deserialize` itself on a non-string input. -/
def deserializeWheel : SerdeValue → Option ParseResult
  | .str s => some (from_str s)
  | .structured _ => none

/-- A valid record in the sense of the spec's data-model invariants (§3):
the three tag sets are non-empty. -/
def Valid (w : WheelFilename) : Prop :=
  w.python_tag ≠ [] ∧ w.abi_tag ≠ [] ∧ w.platform_tag ≠ []

instance (w : WheelFilename) : Decidable (Valid w) := by
  unfold Valid; infer_instance

/-- Concrete record for `foo-1.2.3-py3-none-any.whl`. -/
def exampleNoBuild : WheelFilename :=
  ⟨⟨"foo".toList, by decide⟩, ⟨"1.2.3".toList, by decide⟩, none,
    [⟨"py3".toList, by decide⟩], [⟨"none".toList, by decide⟩],
    [⟨"any".toList, by decide⟩]⟩

/-- The build tag `202206090410` of the spec's build-tag example. -/
def buildTag202206090410 : BuildTag := ⟨"202206090410".toList, by decide⟩

/-- Concrete record for `foo-1.2.3-202206090410-py3-none-any.whl`. -/
def exampleBuild : WheelFilename :=
  { exampleNoBuild with build_tag := some buildTag202206090410 }

theorem not_mem_of_all {p : Char → Bool} {s : Str} (h : s.all p = true)
    {c : Char} (hc : p c = false) : c ∉ s := by
  intro hm
  have hcp := List.all_eq_true.mp h c hm
  rw [hc] at hcp
  exact Bool.noConfusion hcp

theorem validName_no_dash {s : Str} (h : validName s = true) : '-' ∉ s := by
  unfold validName at h
  simp only [Bool.and_eq_true] at h
  exact not_mem_of_all h.2 (by decide)

theorem validVersion_no_dash {s : Str} (h : validVersion s = true) :
    '-' ∉ s := by
  cases s with
  | nil => simp
  | cons c cs =>
    unfold validVersion at h
    simp only [Bool.and_eq_true] at h
    exact not_mem_of_all h.2 (by decide)

theorem validTagStr_no_dash {s : Str} (h : validTagStr s = true) : '-' ∉ s := by
  unfold validTagStr at h
  simp only [Bool.and_eq_true] at h
  exact not_mem_of_all h.2 (by decide)

theorem validTagStr_no_dot {s : Str} (h : validTagStr s = true) : '.' ∉ s := by
  unfold validTagStr at h
  simp only [Bool.and_eq_true] at h
  exact not_mem_of_all h.2 (by decide)

theorem parsePackageName_dist_info (n : PackageName) :
    parsePackageName (as_dist_info_name n) = some n := by
  simp [parsePackageName, as_dist_info_name, n.property]

theorem parseVersion_str (v : Version) :
    parseVersion (versionStr v) = some v := by
  simp [parseVersion, versionStr, v.property]

theorem parseLanguageTag_val (t : LanguageTag) :
    parseLanguageTag t.val = some t := by
  simp [parseLanguageTag, t.property]

theorem parseAbiTag_val (t : AbiTag) : parseAbiTag t.val = some t := by
  simp [parseAbiTag, t.property]

theorem parsePlatformTag_val (t : PlatformTag) :
    parsePlatformTag t.val = some t := by
  simp [parsePlatformTag, t.property]

theorem tagJoin_no_dash {l : List {s : Str // validTagStr s = true}} :
    '-' ∉ joinSep '.' (l.map Subtype.val) := by
  intro hmem
  rcases mem_joinSep hmem with hc | ⟨p, hp, hcp⟩
  · exact absurd hc (by decide)
  · rw [List.mem_map] at hp
    obtain ⟨t, -, rfl⟩ := hp
    exact validTagStr_no_dash t.property hcp

theorem splitOn_dot_tagJoin {l : List {s : Str // validTagStr s = true}}
    (h : l ≠ []) :
    splitOn '.' (joinSep '.' (l.map Subtype.val)) = l.map Subtype.val := by
  apply splitOn_joinSep (fun hmap => h (List.map_eq_nil_iff.mp hmap))
  intro p hp
  rw [List.mem_map] at hp
  obtain ⟨t, -, rfl⟩ := hp
  exact validTagStr_no_dot t.property

theorem mapSome_language (l : List LanguageTag) :
    mapSome parseLanguageTag (l.map Subtype.val) = some l :=
  mapSome_map_of_inverse (fun t _ => parseLanguageTag_val t)

theorem mapSome_abi (l : List AbiTag) :
    mapSome parseAbiTag (l.map Subtype.val) = some l :=
  mapSome_map_of_inverse (fun t _ => parseAbiTag_val t)

theorem mapSome_platform (l : List PlatformTag) :
    mapSome parsePlatformTag (l.map Subtype.val) = some l :=
  mapSome_map_of_inverse (fun t _ => parsePlatformTag_val t)

theorem get_tag_eq (w : WheelFilename) :
    get_tag w = joinSep '.' (w.python_tag.map Subtype.val) ++
      '-' :: joinSep '.' (w.abi_tag.map Subtype.val) ++
      '-' :: joinSep '.' (w.platform_tag.map Subtype.val) := by
  unfold get_tag
  split
  · simp_all [joinSep]
  · rfl

theorem display_eq_stem (w : WheelFilename) :
    display w = stem w ++ ".whl".toList := by
  simp [display, stem, List.append_assoc]

theorem stem_eq_joinSep (w : WheelFilename) :
    stem w = joinSep '-'
      [as_dist_info_name w.name, versionStr w.version,
        joinSep '.' (w.python_tag.map Subtype.val),
        joinSep '.' (w.abi_tag.map Subtype.val),
        joinSep '.' (w.platform_tag.map Subtype.val)] := by
  simp [stem, get_tag_eq, joinSep]

theorem splitOn_stem (w : WheelFilename) :
    splitOn '-' (stem w) =
      [as_dist_info_name w.name, versionStr w.version,
        joinSep '.' (w.python_tag.map Subtype.val),
        joinSep '.' (w.abi_tag.map Subtype.val),
        joinSep '.' (w.platform_tag.map Subtype.val)] := by
  rw [stem_eq_joinSep]
  apply splitOn_joinSep (by simp)
  intro p hp
  simp only [List.mem_cons, List.not_mem_nil, or_false] at hp
  rcases hp with rfl | rfl | rfl | rfl | rfl
  · exact validName_no_dash w.name.property
  · exact validVersion_no_dash w.version.property
  · exact tagJoin_no_dash
  · exact tagJoin_no_dash
  · exact tagJoin_no_dash

theorem from_str_display {w : WheelFilename} (hv : Valid w)
    (hb : w.build_tag = none) : from_str (display w) = .ok w := by
  obtain ⟨hp, ha, hpl⟩ := hv
  have h1 : stripSuffix (display w) ".whl".toList = some (stem w) := by
    rw [display_eq_stem]
    exact stripSuffix_append _ _
  unfold from_str
  rw [h1]
  show parse (stem w) (display w) = .ok w
  unfold parse
  rw [splitOn_stem]
  show parseSegments (display w) (as_dist_info_name w.name)
    (versionStr w.version) none _ _ _ = .ok w
  unfold parseSegments
  rw [parsePackageName_dist_info, parseVersion_str]
  show parseTags (display w) w.name w.version none _ _ _ = .ok w
  unfold parseTags
  rw [splitOn_dot_tagJoin hp, mapSome_language, splitOn_dot_tagJoin ha,
    mapSome_abi, splitOn_dot_tagJoin hpl, mapSome_platform]
  rw [← hb]

theorem parseTags_ok {filename : Str} {name : PackageName} {version : Version}
    {build_tag : Option BuildTag} {p a pl : Str} {w : WheelFilename}
    (h : parseTags filename name version build_tag p a pl = .ok w) :
    w.name = name ∧ w.version = version ∧ w.build_tag = build_tag ∧
    mapSome parseLanguageTag (splitOn '.' p) = some w.python_tag ∧
    mapSome parseAbiTag (splitOn '.' a) = some w.abi_tag ∧
    mapSome parsePlatformTag (splitOn '.' pl) = some w.platform_tag := by
  unfold parseTags at h
  split at h
  · simp at h
  · split at h
    · simp at h
    · split at h
      · simp at h
      · injection h with hw
        subst hw
        exact ⟨rfl, rfl, rfl, by assumption, by assumption, by assumption⟩

theorem parseSegments_ok {filename n v : Str} {b : Option Str} {p a pl : Str}
    {w : WheelFilename} (h : parseSegments filename n v b p a pl = .ok w) :
    parsePackageName n = some w.name ∧ parseVersion v = some w.version ∧
    ((b = none ∧ w.build_tag = none) ∨
      ∃ bs bt, b = some bs ∧ parseBuildTag bs = some bt ∧
        w.build_tag = some bt) ∧
    mapSome parseLanguageTag (splitOn '.' p) = some w.python_tag ∧
    mapSome parseAbiTag (splitOn '.' a) = some w.abi_tag ∧
    mapSome parsePlatformTag (splitOn '.' pl) = some w.platform_tag := by
  unfold parseSegments at h
  split at h
  · simp at h
  · rename_i name hname
    split at h
    · simp at h
    · rename_i version hversion
      split at h
      · obtain ⟨h1, h2, h3, h4, h5, h6⟩ := parseTags_ok h
        exact ⟨by rw [hname, h1], by rw [hversion, h2],
          Or.inl ⟨rfl, h3⟩, h4, h5, h6⟩
      · rename_i bs
        split at h
        · simp at h
        · rename_i bt hbt
          obtain ⟨h1, h2, h3, h4, h5, h6⟩ := parseTags_ok h
          exact ⟨by rw [hname, h1], by rw [hversion, h2],
            Or.inr ⟨bs, bt, rfl, hbt, h3⟩, h4, h5, h6⟩

theorem parseParts_ok {filename : Str} {l : List Str} {w : WheelFilename}
    (h : parseParts filename l = .ok w) :
    ∃ pre p a pl, l = pre ++ [p, a, pl] ∧
      (l.length = 5 ∨ l.length = 6) ∧
      mapSome parseLanguageTag (splitOn '.' p) = some w.python_tag ∧
      mapSome parseAbiTag (splitOn '.' a) = some w.abi_tag ∧
      mapSome parsePlatformTag (splitOn '.' pl) = some w.platform_tag := by
  rcases l with
    _ | ⟨s1, _ | ⟨s2, _ | ⟨s3, _ | ⟨s4, _ | ⟨s5, _ | ⟨s6, _ | ⟨s7, t⟩⟩⟩⟩⟩⟩⟩
  · simp [parseParts] at h
  · simp [parseParts] at h
  · simp [parseParts] at h
  · simp [parseParts] at h
  · simp [parseParts] at h
  · have h5 : parseSegments filename s1 s2 none s3 s4 s5 = .ok w := h
    obtain ⟨-, -, -, h4, h5, h6⟩ := parseSegments_ok h5
    exact ⟨[s1, s2], s3, s4, s5, rfl, Or.inl rfl, h4, h5, h6⟩
  · have h6 : parseSegments filename s1 s2 (some s3) s4 s5 s6 = .ok w := h
    obtain ⟨-, -, -, h4, h5, h6⟩ := parseSegments_ok h6
    exact ⟨[s1, s2, s3], s4, s5, s6, rfl, Or.inr rfl, h4, h5, h6⟩
  · simp [parseParts] at h

theorem parseParts_build_none {filename : Str} {s1 s2 s3 s4 s5 : Str}
    {w : WheelFilename} (h : parseParts filename [s1, s2, s3, s4, s5] = .ok w) :
    w.build_tag = none := by
  have h5 : parseSegments filename s1 s2 none s3 s4 s5 = .ok w := h
  obtain ⟨-, -, hbuild, -, -, -⟩ := parseSegments_ok h5
  rcases hbuild with ⟨-, hb⟩ | ⟨bs, bt, hnone, -, -⟩
  · exact hb
  · exact Option.noConfusion hnone

theorem parseParts_build_some {filename : Str} {s1 s2 s3 s4 s5 s6 : Str}
    {w : WheelFilename}
    (h : parseParts filename [s1, s2, s3, s4, s5, s6] = .ok w) :
    ∃ bt, parseBuildTag s3 = some bt ∧ w.build_tag = some bt := by
  have h6 : parseSegments filename s1 s2 (some s3) s4 s5 s6 = .ok w := h
  obtain ⟨-, -, hbuild, -, -, -⟩ := parseSegments_ok h6
  rcases hbuild with ⟨hnone, -⟩ | ⟨bs, bt, hsome, hparse, hb⟩
  · exact Option.noConfusion hnone
  · injection hsome with hbs
    subst hbs
    exact ⟨bt, hparse, hb⟩

theorem parseTags_ne_panic (filename : Str) (name : PackageName)
    (version : Version) (build_tag : Option BuildTag) (p a pl : Str) :
    parseTags filename name version build_tag p a pl ≠ .panic := by
  unfold parseTags
  split
  · simp
  · split
    · simp
    · split
      · simp
      · simp

theorem parseSegments_ne_panic (filename n v : Str) (b : Option Str)
    (p a pl : Str) : parseSegments filename n v b p a pl ≠ .panic := by
  unfold parseSegments
  split
  · simp
  · split
    · simp
    · split
      · exact parseTags_ne_panic _ _ _ _ _ _ _
      · split
        · simp
        · exact parseTags_ne_panic _ _ _ _ _ _ _

theorem parseParts_ne_panic {filename : Str} {l : List Str} (h : l ≠ []) :
    parseParts filename l ≠ .panic := by
  rcases l with
    _ | ⟨s1, _ | ⟨s2, _ | ⟨s3, _ | ⟨s4, _ | ⟨s5, _ | ⟨s6, _ | ⟨s7, t⟩⟩⟩⟩⟩⟩⟩
  · exact absurd rfl h
  · simp [parseParts]
  · simp [parseParts]
  · simp [parseParts]
  · simp [parseParts]
  · exact parseSegments_ne_panic filename s1 s2 none s3 s4 s5
  · exact parseSegments_ne_panic filename s1 s2 (some s3) s4 s5 s6
  · simp [parseParts]

theorem parseParts_len_one {filename : Str} {l : List Str} (h : l.length = 1) :
    parseParts filename l =
      .error (.invalidWheelFileName filename "Must have a version".toList) := by
  rcases l with _ | ⟨a, _ | ⟨b, t⟩⟩
  · simp at h
  · rfl
  · simp only [List.length_cons] at h
    omega

theorem parseParts_len_two {filename : Str} {l : List Str} (h : l.length = 2) :
    parseParts filename l =
      .error
        (.invalidWheelFileName filename "Must have a Python tag".toList) := by
  rcases l with _ | ⟨a, _ | ⟨b, _ | ⟨c, t⟩⟩⟩
  · simp at h
  · simp at h
  · rfl
  · simp only [List.length_cons] at h
    omega

theorem parseParts_len_three {filename : Str} {l : List Str}
    (h : l.length = 3) :
    parseParts filename l =
      .error (.invalidWheelFileName filename "Must have an ABI tag".toList) := by
  rcases l with _ | ⟨a, _ | ⟨b, _ | ⟨c, _ | ⟨d, t⟩⟩⟩⟩
  · simp at h
  · simp at h
  · simp at h
  · rfl
  · simp only [List.length_cons] at h
    omega

theorem parseParts_len_four {filename : Str} {l : List Str}
    (h : l.length = 4) :
    parseParts filename l =
      .error
        (.invalidWheelFileName filename "Must have a platform tag".toList) := by
  rcases l with _ | ⟨a, _ | ⟨b, _ | ⟨c, _ | ⟨d, _ | ⟨e, t⟩⟩⟩⟩⟩
  · simp at h
  · simp at h
  · simp at h
  · simp at h
  · rfl
  · simp only [List.length_cons] at h
    omega

theorem parseParts_len_big {filename : Str} {l : List Str}
    (h : 7 ≤ l.length) :
    parseParts filename l =
      .error (.invalidWheelFileName filename
        "Must have 5 or 6 components, but has more".toList) := by
  rcases l with
    _ | ⟨s1, _ | ⟨s2, _ | ⟨s3, _ | ⟨s4, _ | ⟨s5, _ | ⟨s6, _ | ⟨s7, t⟩⟩⟩⟩⟩⟩⟩ <;>
    simp only [List.length_cons, List.length_nil] at h
  all_goals first
    | omega
    | rfl

/-- URL with no path segments (a cannot-be-a-base URL). -/
def urlNoPath : Url := ⟨"mailto:user@example.com".toList, none⟩

/-- URL whose path-segment iterator is empty. -/
def urlEmptySegments : Url := ⟨"https://example.com".toList, some []⟩

/-- URL whose last path segment is `foo.rs`, a non-wheel filename. -/
def urlFoo : Url :=
  ⟨"https://files.example.com/packages/foo.rs".toList,
    some ["packages".toList, "foo.rs".toList]⟩

/-- C1: the round-trip law fails on the code as soon as the build tag is
present: the record parsed from `foo-1.2.3-202206090410-py3-none-any.whl` is
a valid record with a build tag, but formatting it drops the build tag, so
re-parsing does not yield the record back. -/
theorem c1_counterexample :
    Valid exampleBuild ∧ exampleBuild.build_tag ≠ none ∧
      from_str (display exampleBuild) ≠ ParseResult.ok exampleBuild := by
  decide

/-- C1 (amended): for every valid record whose build tag is absent, parsing
the string produced by formatting yields an equal record:
`parse (format r) = ok r`. -/
theorem c1_roundtrip (w : WheelFilename) (hv : Valid w)
    (hb : w.build_tag = none) : from_str (display w) = .ok w :=
  from_str_display hv hb

/-- C1 witness: the round trip evaluated at the record of
`foo-1.2.3-py3-none-any.whl`. -/
theorem c1_roundtrip_witness :
    from_str (display exampleNoBuild) = .ok exampleNoBuild :=
  c1_roundtrip exampleNoBuild (by decide) rfl

/-- C2: counterexample to the claim as stated: for a record with a build tag,
the formatted string does not include the build tag as the third
dash-separated segment — the third segment of the stem is the python tag and
the build tag appears nowhere. -/
theorem c2_counterexample :
    exampleBuild.build_tag = some buildTag202206090410 ∧
      display exampleBuild = "foo-1.2.3-py3-none-any.whl".toList ∧
      splitOn '-' (stem exampleBuild) =
        ["foo".toList, "1.2.3".toList, "py3".toList, "none".toList,
          "any".toList] := by
  decide

/-- C2 (amended): format omits the build tag entirely whether it is absent
or present — the rendered filename and stem never depend on the build-tag
field. -/
theorem c2_format_ignores_build (w : WheelFilename) :
    display { w with build_tag := none } = display w ∧
      stem { w with build_tag := none } = stem w :=
  ⟨rfl, rfl⟩

/-- C3: counterexample to the claim as stated: when the delegated parse of
the extracted segment fails, the error carries the extracted filename
segment (`foo.rs`), not the URL's string form. -/
theorem c3_counterexample :
    try_from urlFoo =
      ParseResult.error (.invalidWheelFileName "foo.rs".toList
        "Must end with .whl".toList) ∧
      "foo.rs".toList ≠ urlFoo.toStr := by
  decide

/-- C3 (amended): `try_from` extracts the last path segment and delegates to
`from_str`; it fails with a dedicated error when the URL has no path or the
path has no segments, and those two dedicated errors carry the URL's string
form — errors of the delegated parse carry the extracted segment instead. -/
theorem c3_url_delegation (url : Url) :
    (url.path_segments = none →
      try_from url =
        .error (.invalidWheelFileName url.toStr
          "URL must have a path".toList)) ∧
    (url.path_segments = some [] →
      try_from url =
        .error (.invalidWheelFileName url.toStr
          "URL must contain a filename".toList)) ∧
    (∀ segments fn, url.path_segments = some segments →
      segments.getLast? = some fn → try_from url = from_str fn) := by
  refine ⟨fun h => ?_, fun h => ?_, fun segments fn h1 h2 => ?_⟩
  · unfold try_from
    rw [h]
  · unfold try_from
    rw [h]
    rfl
  · simp only [try_from, h1, h2]

/-- C3 witness: the three branches of `try_from` at concrete URLs. -/
theorem c3_url_delegation_witness :
    try_from urlNoPath =
      .error (.invalidWheelFileName urlNoPath.toStr
        "URL must have a path".toList) ∧
    try_from urlEmptySegments =
      .error (.invalidWheelFileName urlEmptySegments.toStr
        "URL must contain a filename".toList) ∧
    try_from urlFoo = from_str "foo.rs".toList :=
  ⟨(c3_url_delegation urlNoPath).1 rfl,
    (c3_url_delegation urlEmptySegments).2.1 rfl,
    (c3_url_delegation urlFoo).2.2 _ "foo.rs".toList rfl rfl⟩

/-- C4: every input that does not end with `.whl` fails with the
missing-extension error, regardless of the rest of its content, and the
error carries the original unmodified input string. -/
theorem c4_extension (s : Str) (h : ".whl".toList.isSuffixOf s = false) :
    from_str s =
      .error (.invalidWheelFileName s "Must end with .whl".toList) := by
  unfold from_str stripSuffix
  simp only [h, Bool.false_eq_true, if_false]

/-- C4 witness: the missing-extension error at `foo.rs`. -/
theorem c4_extension_witness :
    from_str "foo.rs".toList =
      .error (.invalidWheelFileName "foo.rs".toList
        "Must end with .whl".toList) :=
  c4_extension _ (by decide)

/-- C5: segment-count boundaries of `parse`: 1 to 4 dash-separated segments
fail with the missing version / Python tag / ABI tag / platform tag errors
in that fixed order, 7 or more segments fail with the too-many-components
error, and a successful parse is only possible at exactly 5 or 6 segments. -/
theorem c5_segment_counts (st filename : Str) :
    ((splitOn '-' st).length = 1 →
      parse st filename =
        .error (.invalidWheelFileName filename
          "Must have a version".toList)) ∧
    ((splitOn '-' st).length = 2 →
      parse st filename =
        .error (.invalidWheelFileName filename
          "Must have a Python tag".toList)) ∧
    ((splitOn '-' st).length = 3 →
      parse st filename =
        .error (.invalidWheelFileName filename
          "Must have an ABI tag".toList)) ∧
    ((splitOn '-' st).length = 4 →
      parse st filename =
        .error (.invalidWheelFileName filename
          "Must have a platform tag".toList)) ∧
    (7 ≤ (splitOn '-' st).length →
      parse st filename =
        .error (.invalidWheelFileName filename
          "Must have 5 or 6 components, but has more".toList)) ∧
    (∀ w, parse st filename = .ok w →
      (splitOn '-' st).length = 5 ∨ (splitOn '-' st).length = 6) := by
  refine ⟨fun h => parseParts_len_one h, fun h => parseParts_len_two h,
    fun h => parseParts_len_three h, fun h => parseParts_len_four h,
    fun h => parseParts_len_big h, fun w h => ?_⟩
  have h' : parseParts filename (splitOn '-' st) = .ok w := h
  obtain ⟨-, -, -, -, -, hlen, -, -, -⟩ := parseParts_ok h'
  exact hlen

/-- C5 witness: each boundary case at a concrete stem. -/
theorem c5_segment_counts_witness :
    parse "foo".toList "foo.whl".toList =
      .error (.invalidWheelFileName "foo.whl".toList
        "Must have a version".toList) ∧
    parse "foo-1.2.3".toList "foo-1.2.3.whl".toList =
      .error (.invalidWheelFileName "foo-1.2.3.whl".toList
        "Must have a Python tag".toList) ∧
    parse "foo-1.2.3-py3".toList "foo-1.2.3-py3.whl".toList =
      .error (.invalidWheelFileName "foo-1.2.3-py3.whl".toList
        "Must have an ABI tag".toList) ∧
    parse "foo-1.2.3-py3-none".toList "foo-1.2.3-py3-none.whl".toList =
      .error (.invalidWheelFileName "foo-1.2.3-py3-none.whl".toList
        "Must have a platform tag".toList) ∧
    parse "foo-1.2.3-1-py3-none-any-x".toList
        "foo-1.2.3-1-py3-none-any-x.whl".toList =
      .error (.invalidWheelFileName "foo-1.2.3-1-py3-none-any-x.whl".toList
        "Must have 5 or 6 components, but has more".toList) ∧
    ((splitOn '-' "foo-1.2.3-py3-none-any".toList).length = 5 ∨
      (splitOn '-' "foo-1.2.3-py3-none-any".toList).length = 6) :=
  ⟨(c5_segment_counts "foo".toList "foo.whl".toList).1 (by decide),
    (c5_segment_counts "foo-1.2.3".toList "foo-1.2.3.whl".toList).2.1
      (by decide),
    (c5_segment_counts "foo-1.2.3-py3".toList
      "foo-1.2.3-py3.whl".toList).2.2.1 (by decide),
    (c5_segment_counts "foo-1.2.3-py3-none".toList
      "foo-1.2.3-py3-none.whl".toList).2.2.2.1 (by decide),
    (c5_segment_counts "foo-1.2.3-1-py3-none-any-x".toList
      "foo-1.2.3-1-py3-none-any-x.whl".toList).2.2.2.2.1 (by decide),
    (c5_segment_counts "foo-1.2.3-py3-none-any".toList
      "x".toList).2.2.2.2.2 exampleNoBuild (by decide)⟩

/-- C6: the third segment is disambiguated purely by total segment count —
a 5-segment split parses with no build tag, a 6-segment split parses its
third element through the build-tag parser, and the spec's two literal
examples behave as stated. -/
theorem c6_build_disambiguation :
    (∀ st filename w n v p a pl, splitOn '-' st = [n, v, p, a, pl] →
      parse st filename = .ok w → w.build_tag = none) ∧
    (∀ st filename w n v b p a pl, splitOn '-' st = [n, v, b, p, a, pl] →
      parse st filename = .ok w →
        ∃ bt, parseBuildTag b = some bt ∧ w.build_tag = some bt) ∧
    from_str "foo-1.2.3-py3-none-any.whl".toList = .ok exampleNoBuild ∧
    exampleNoBuild.build_tag = none ∧
    from_str "foo-1.2.3-202206090410-py3-none-any.whl".toList =
      .ok exampleBuild ∧
    exampleBuild.build_tag = some buildTag202206090410 := by
  refine ⟨?_, ?_, by decide, rfl, by decide, rfl⟩
  · intro st filename w n v p a pl hsplit hok
    have h' : parseParts filename [n, v, p, a, pl] = .ok w := by
      rw [← hsplit]
      exact hok
    exact parseParts_build_none h'
  · intro st filename w n v b p a pl hsplit hok
    have h' : parseParts filename [n, v, b, p, a, pl] = .ok w := by
      rw [← hsplit]
      exact hok
    exact parseParts_build_some h'

/-- C6 witness: the two general disambiguation facts applied to the spec's
literal stems. -/
theorem c6_build_disambiguation_witness :
    exampleNoBuild.build_tag = none ∧
      ∃ bt, parseBuildTag "202206090410".toList = some bt ∧
        exampleBuild.build_tag = some bt :=
  ⟨c6_build_disambiguation.1 "foo-1.2.3-py3-none-any".toList "x".toList
      exampleNoBuild "foo".toList "1.2.3".toList "py3".toList "none".toList
      "any".toList (by decide) (by decide),
    c6_build_disambiguation.2.1 "foo-1.2.3-202206090410-py3-none-any".toList
      "x".toList exampleBuild "foo".toList "1.2.3".toList
      "202206090410".toList "py3".toList "none".toList "any".toList
      (by decide) (by decide)⟩

/-- C7: for every record, the formatted filename is the stem followed by the
literal `.whl` suffix: `format r = stem r ++ ".whl"`. -/
theorem c7_stem_format (w : WheelFilename) :
    display w = stem w ++ ".whl".toList :=
  display_eq_stem w

/-- C8: serialization produces exactly the canonical filename string (the
result of formatting) and never a structured encoding, and deserialization
of a string is exactly parse applied to it, succeeding iff parse succeeds
with the same record. -/
theorem c8_serde (w : WheelFilename) (s : Str) :
    serializeWheel w = SerdeValue.str (display w) ∧
    deserializeWheel (SerdeValue.str s) = some (from_str s) ∧
    (∀ fields, deserializeWheel (SerdeValue.structured fields) = none) ∧
    (∀ w', deserializeWheel (SerdeValue.str s) = some (.ok w') ↔
      from_str s = .ok w') :=
  ⟨rfl, rfl, fun _ => rfl, fun w' => by simp [deserializeWheel]⟩

/-- C9: every record produced by a successful parse has non-empty python,
ABI and platform tag sets, each obtained by parsing the dot-separated tags
of the corresponding dash segment elementwise, in source order. -/
theorem c9_tag_sets (st filename : Str) (w : WheelFilename)
    (h : parse st filename = .ok w) :
    w.python_tag ≠ [] ∧ w.abi_tag ≠ [] ∧ w.platform_tag ≠ [] ∧
      ∃ pre p a pl, splitOn '-' st = pre ++ [p, a, pl] ∧
        mapSome parseLanguageTag (splitOn '.' p) = some w.python_tag ∧
        mapSome parseAbiTag (splitOn '.' a) = some w.abi_tag ∧
        mapSome parsePlatformTag (splitOn '.' pl) = some w.platform_tag := by
  have h' : parseParts filename (splitOn '-' st) = .ok w := h
  obtain ⟨pre, p, a, pl, heq, -, h4, h5, h6⟩ := parseParts_ok h'
  refine ⟨?_, ?_, ?_, pre, p, a, pl, heq, h4, h5, h6⟩
  · intro hnil
    have hlen := mapSome_length h4
    rw [hnil] at hlen
    exact splitOn_ne_nil '.' p (List.length_eq_zero.mp hlen.symm)
  · intro hnil
    have hlen := mapSome_length h5
    rw [hnil] at hlen
    exact splitOn_ne_nil '.' a (List.length_eq_zero.mp hlen.symm)
  · intro hnil
    have hlen := mapSome_length h6
    rw [hnil] at hlen
    exact splitOn_ne_nil '.' pl (List.length_eq_zero.mp hlen.symm)

/-- C9 witness: the invariants at the record parsed from
`foo-1.2.3-py3-none-any`. -/
theorem c9_tag_sets_witness :
    exampleNoBuild.python_tag ≠ [] ∧ exampleNoBuild.abi_tag ≠ [] ∧
      exampleNoBuild.platform_tag ≠ [] ∧
      ∃ pre p a pl,
        splitOn '-' "foo-1.2.3-py3-none-any".toList = pre ++ [p, a, pl] ∧
        mapSome parseLanguageTag (splitOn '.' p) =
          some exampleNoBuild.python_tag ∧
        mapSome parseAbiTag (splitOn '.' a) = some exampleNoBuild.abi_tag ∧
        mapSome parsePlatformTag (splitOn '.' pl) =
          some exampleNoBuild.platform_tag :=
  c9_tag_sets "foo-1.2.3-py3-none-any".toList "x".toList exampleNoBuild
    (by decide)

/-- C10: `parse` is total and never reaches the panic branch of the
package-name extraction, because splitting any string on a separator always
yields at least one piece. -/
theorem c10_parse_total (st filename : Str) :
    splitOn '-' st ≠ [] ∧ parse st filename ≠ ParseResult.panic :=
  ⟨splitOn_ne_nil '-' st, parseParts_ne_panic (splitOn_ne_nil '-' st)⟩

end Wheel
